import Mathlib

/-!
Verification of the effect-processing and undo/redo orchestration core of the
pyrust-image-processor repository, shallowly embedded in Lean 4.

The embedding covers:
  * `src/processing/batch_processor.py` (`BatchProcessor`);
  * `src/processing/commands.py` (`ImageState`, `ImageProcessCommand`);
  * `src/gui/main_window.py` (`ProcessingThread.run`, and the
    state-relevant methods of `MainWindow`: `load_specific_image`,
    `process_image`, `process_image_internal`, `process_batch`,
    `processing_complete`).

Python `Optional[str]` fields are modelled as `Option String` (with `none`
for Python `None`).  The Qt `QUndoStack` (an external collaborator) is
modelled by its documented semantics: a command list with a cursor; `push`
truncates the redoable suffix, appends, calls the command's `redo` and
advances the cursor; `undo`/`redo` move the cursor and dispatch to the
command.  The displayed pixmap of `image_label` is modelled by the path the
pixmap was loaded from (`displayed`).  Calls to the external Rust effect
engine are recorded as `EngineCall` values; the engine's success/failure at
each call is an environment parameter.  `logging` calls are modelled by
`LogEntry` values, one constructor per distinct `logging.error`/`info`
call site relevant to the claims.
-/

/-- Python pathlib `Path(p).name`: the final nonempty `/`-separated
component of the path (empty when there is none).  `.` and `..` components
receive no special treatment; none of the verified scenarios use them. -/
def splitOnSlash : List Char → List (List Char)
  | [] => [[]]
  | c :: cs =>
      let r := splitOnSlash cs
      if c = '/' then [] :: r
      else
        match r with
        | [] => [[c]]
        | g :: gs => (c :: g) :: gs

/-- Python pathlib `Path(p).name`, on the string level. -/
def pathName (p : String) : String :=
  String.mk (((splitOnSlash p.data).filter (fun g => !g.isEmpty)).getLastD [])

/-- Python `str(Path(d) / s)` for a relative `s` and a normalized directory
`d` (as returned by `tempfile.mkdtemp`, which never ends in a slash). -/
def pathJoin (d s : String) : String := d ++ "/" ++ s

/-- The `ImageState` dataclass of `src/processing/commands.py`.  Its `path`
field is declared `str` but receives `window.current_image`, an
`Optional[str]`, so it is modelled as `Option String`.  (The second,
unused `ImageState` dataclass in `batch_processor.py` is not modelled.) -/
structure ImageState where
  path : Option String
  effect : Option String
deriving DecidableEq, Repr

/-- The `ImageProcessCommand` of `src/processing/commands.py`, as data: its
`window` back-reference is replaced by passing the window state to the
`undo`/`redo` interpreters. -/
structure ImageProcessCommand where
  effect_type : String
  old_state : ImageState
  new_state : Option ImageState
deriving DecidableEq, Repr

/-- The Qt `QUndoStack` used by `MainWindow`, modelled by its documented
semantics: an ordered command list and a cursor `index` counting the
currently applied prefix. -/
structure UndoStack where
  commands : List ImageProcessCommand
  index : Nat
deriving DecidableEq, Repr

/-- The `BatchProcessor` of `src/processing/batch_processor.py`.
`temp_dir` stands for the directory returned by `tempfile.mkdtemp()` at
construction; `processed_images` is the insertion-ordered dict, modelled as
an association list. -/
structure BatchProcessor where
  effects_queue : List String
  temp_dir : String
  processed_images : List (String × String)
deriving DecidableEq, Repr

/-- `BatchProcessor.add_effect`: append to the queue. -/
def BatchProcessor.add_effect (bp : BatchProcessor) (effect : String) : BatchProcessor :=
  { bp with effects_queue := bp.effects_queue ++ [effect] }

/-- `BatchProcessor.clear_effects`. -/
def BatchProcessor.clear_effects (bp : BatchProcessor) : BatchProcessor :=
  { bp with effects_queue := [] }

/-- `BatchProcessor.get_temp_path`:
`str(Path(self.temp_dir) / f"temp_{Path(original_path).name}")`. -/
def BatchProcessor.get_temp_path (bp : BatchProcessor) (original_path : String) : String :=
  pathJoin bp.temp_dir ("temp_" ++ pathName original_path)

/-- Python dict assignment `d[k] = v`: overwrite in place when the key is
present (keeping its position), append otherwise. -/
def dictInsert (m : List (String × String)) (k v : String) : List (String × String) :=
  if m.any (fun kv => kv.1 = k) then
    m.map (fun kv => if kv.1 = k then (k, v) else kv)
  else m ++ [(k, v)]

/-- One distinct logging call site of the embedded code. -/
inductive LogEntry where
  /-- `logging.error(f"Processing error: {e}")` in `ProcessingThread.run`
  (the swallowed engine exception), tagged with the call's arguments. -/
  | processingError (input_path effect_type output_path : String)
  /-- `logging.info(f"Processing complete. Result saved to: {result_path}")`. -/
  | infoComplete (path : String)
  /-- `logging.error(f"Error: Result file does not exist: {result_path}")`. -/
  | resultMissing (path : String)
  /-- `logging.error(f"Error: Failed to load result image: {result_path}")`. -/
  | resultNotDecodable (path : String)
  /-- `logging.info("No files or effects to process")`. -/
  | infoNoWork
  /-- `logging.info("Batch processing complete!")`. -/
  | infoBatchComplete
deriving DecidableEq, Repr

/-- One invocation of the external engine
`image_processor_rust.process_image(input_path, effect_type, output_path, cb)`. -/
structure EngineCall where
  input_path : String
  effect_type : String
  output_path : String
deriving DecidableEq, Repr

/-- A started asynchronous `ProcessingThread`: the engine call it will
perform, plus the stack position of the `ImageProcessCommand` captured by
the `finished`-signal lambda (if any). -/
structure PendingTask where
  input_path : String
  effect_type : String
  output_path : String
  command : Option Nat
deriving DecidableEq, Repr

/-- `ProcessingThread.run`: calls the engine inside `try/except`.  On
success the engine returns the output path, which is emitted through the
`finished` signal (the first component).  On any engine exception the
except branch logs the error and returns: the exception never escapes and
`finished` is never emitted. -/
def ProcessingThread.run (engineOk : Bool) (input_path effect_type output_path : String) :
    Option String × List LogEntry :=
  if engineOk then (some output_path, [])
  else (none, [LogEntry.processingError input_path effect_type output_path])

/-- Result of the inner `for effect in self.batch_processor.effects_queue`
loop of `MainWindow.process_batch` for one file: the final `current_input`,
the engine calls made, the successive `progress_bar.setValue` arguments,
the log entries, and the updated `completed_operations` counter. -/
structure EffectsLoopOut where
  current : String
  calls : List EngineCall
  progs : List Nat
  logs : List LogEntry
  done : Nat
deriving DecidableEq, Repr

/-- The inner loop of `MainWindow.process_batch`.  `engineOk j` tells
whether engine call number `j` (1-indexed over the whole batch) succeeds.
The value emitted by `ProcessingThread.run` is discarded, exactly as in the
source (`thread.run()` is a bare statement and nothing is connected to the
thread's `finished` signal on this path).  `progress =
int((completed_operations / total_operations) * 100)` is modelled as
`completed * 100 / total` in `Nat`; for every concrete instance appearing
in the claims the IEEE-double computation of the source and the rational
floor agree (checked by hand for the 2-file 3-effect table). -/
def runEffectsLoop (bp : BatchProcessor) (engineOk : Nat → Bool) (file : String)
    (effects : List String) (current : String) (done total : Nat) : EffectsLoopOut :=
  match effects with
  | [] => ⟨current, [], [], [], done⟩
  | effect :: rest =>
      let temp_output := bp.get_temp_path file
      let r := ProcessingThread.run (engineOk (done + 1)) current effect temp_output
      let done1 := done + 1
      let progress := done1 * 100 / total
      let out := runEffectsLoop bp engineOk file rest temp_output done1 total
      ⟨out.current, ⟨current, effect, temp_output⟩ :: out.calls,
       progress :: out.progs, r.2 ++ out.logs, out.done⟩

/-- Result of the outer `for file in self.batch_files` loop. -/
structure FilesLoopOut where
  calls : List EngineCall
  progs : List Nat
  logs : List LogEntry
  processed : List (String × String)
  done : Nat
deriving DecidableEq, Repr

/-- The outer loop of `MainWindow.process_batch`: per file, run every queued
effect chained through `current_input`, then record
`self.batch_processor.processed_images[file] = current_input`. -/
def runFilesLoop (bp : BatchProcessor) (engineOk : Nat → Bool)
    (files : List String) (effects : List String) (done total : Nat)
    (processed : List (String × String)) : FilesLoopOut :=
  match files with
  | [] => ⟨[], [], [], processed, done⟩
  | file :: rest =>
      let r1 := runEffectsLoop bp engineOk file effects file done total
      let processed1 := dictInsert processed file r1.current
      let r2 := runFilesLoop bp engineOk rest effects r1.done total processed1
      ⟨r1.calls ++ r2.calls, r1.progs ++ r2.progs, r1.logs ++ r2.logs,
       r2.processed, r2.done⟩

/-- Observable outcome of one `MainWindow.process_batch` run. -/
structure BatchResult where
  calls : List EngineCall
  progressValues : List Nat
  logs : List LogEntry
  processed : List (String × String)
deriving DecidableEq, Repr

/-- `MainWindow.process_batch`, with `self.batch_files` and
`self.batch_processor` passed explicitly.  The guard is Python truthiness
(`if not self.batch_files or not self.batch_processor.effects_queue`).
The `except` branch of the source is dead for engine failures:
`ProcessingThread.run` catches every engine exception itself, so the loop
body never raises and the final `logging.info` is always reached.
Progress-bar visibility toggling is UI-only and not part of the result. -/
def process_batch (bp : BatchProcessor) (batch_files : List String)
    (engineOk : Nat → Bool) : BatchResult :=
  if batch_files.isEmpty || bp.effects_queue.isEmpty then
    { calls := [], progressValues := [], logs := [LogEntry.infoNoWork],
      processed := bp.processed_images }
  else
    let total := batch_files.length * bp.effects_queue.length
    let out := runFilesLoop bp engineOk batch_files bp.effects_queue 0 total bp.processed_images
    { calls := out.calls, progressValues := out.progs,
      logs := out.logs ++ [LogEntry.infoBatchComplete],
      processed := out.processed }

/-- The state of `MainWindow` that the claims are about.  `displayed` is
the path from which the pixmap currently shown in `image_label` was loaded
(`none` before any `setPixmap`).  The three `*_enabled` flags model the
corresponding buttons; widget layout is not modelled. -/
structure MainWindow where
  current_image : Option String
  current_processed_image : Option String
  displayed : Option String
  progress_visible : Bool
  effects_enabled : Bool
  save_enabled : Bool
  process_batch_enabled : Bool
  batch_files : List String
  batch_processor : BatchProcessor
  undo_stack : UndoStack
deriving DecidableEq, Repr

/-- `MainWindow.__init__`: no image, empty batch state, empty undo stack;
`temp_dir` is the directory `tempfile.mkdtemp()` returned for the
freshly constructed `BatchProcessor`. -/
def MainWindow.initial (temp_dir : String) : MainWindow :=
  { current_image := none, current_processed_image := none, displayed := none,
    progress_visible := false, effects_enabled := false, save_enabled := false,
    process_batch_enabled := false, batch_files := [],
    batch_processor := { effects_queue := [], temp_dir := temp_dir, processed_images := [] },
    undo_stack := { commands := [], index := 0 } }

/-- `MainWindow.load_specific_image`: unconditionally sets
`self.current_image = file_name`, loads and shows the pixmap for that
path, and enables the effect buttons.  The source passes whatever value it
has in hand — `ImageProcessCommand.undo` passes `old_state.path`, which can
be `None` — so the argument is `Option String` here. -/
def MainWindow.load_specific_image (w : MainWindow) (file_name : Option String) : MainWindow :=
  { w with current_image := file_name, displayed := file_name, effects_enabled := true }

/-- `MainWindow.process_image_internal`: Python truthiness guard
`if not self.current_image: return` (both `None` and `""` are falsy), then
derives the temp output path and starts a `ProcessingThread`
asynchronously.  The returned `PendingTask` is the started thread;
`command` is the stack position of the command captured by the
`finished`-signal lambda. -/
def MainWindow.process_image_internal (w : MainWindow) (effect_type : String)
    (command : Option Nat) : MainWindow × Option PendingTask :=
  match w.current_image with
  | none => (w, none)
  | some img =>
      if img = "" then (w, none)
      else
        ({ w with progress_visible := true },
         some { input_path := img, effect_type := effect_type,
                output_path := w.batch_processor.get_temp_path img,
                command := command })

/-- `ImageProcessCommand.undo`:
`self.window.load_specific_image(self.old_state.path)`, with no guard of
any kind on `old_state.path`. -/
def ImageProcessCommand.undo (c : ImageProcessCommand) (w : MainWindow) : MainWindow :=
  w.load_specific_image c.old_state.path

/-- `ImageProcessCommand.redo`: restore the cached `new_state` path when
it is populated, otherwise run processing.  `i` is this command's position
on the undo stack (in the source, the command passes itself by
reference). -/
def ImageProcessCommand.redo (c : ImageProcessCommand) (w : MainWindow) (i : Nat) :
    MainWindow × Option PendingTask :=
  match c.new_state with
  | some ns => (w.load_specific_image ns.path, none)
  | none => w.process_image_internal c.effect_type (some i)

/-- Replace the element at a position of a list (identity out of range). -/
def listModify (f : ImageProcessCommand → ImageProcessCommand) :
    Nat → List ImageProcessCommand → List ImageProcessCommand
  | _, [] => []
  | 0, c :: cs => f c :: cs
  | n + 1, c :: cs => c :: listModify f n cs

/-- `QUndoStack.undo` as driven by `MainWindow`: no-op at the bottom of the
stack, otherwise run the current command's `undo` and move the cursor
back.  `ImageProcessCommand.undo` starts no processing, so no task is
returned. -/
def MainWindow.undo (w : MainWindow) : MainWindow :=
  if w.undo_stack.index = 0 then w
  else
    match w.undo_stack.commands[w.undo_stack.index - 1]? with
    | none => w
    | some c =>
        let w1 := c.undo w
        { w1 with undo_stack := { w1.undo_stack with index := w1.undo_stack.index - 1 } }

/-- `QUndoStack.redo` as driven by `MainWindow`: no-op at the top of the
stack, otherwise run the command at the cursor and advance. -/
def MainWindow.redo (w : MainWindow) : MainWindow × Option PendingTask :=
  match w.undo_stack.commands[w.undo_stack.index]? with
  | none => (w, none)
  | some c =>
      let r := c.redo w w.undo_stack.index
      ({ r.1 with undo_stack := { r.1.undo_stack with index := r.1.undo_stack.index + 1 } },
       r.2)

/-- Iterated `undo`. -/
def MainWindow.undoN (w : MainWindow) : Nat → MainWindow
  | 0 => w
  | n + 1 => (w.undo).undoN n

/-- Iterated `redo` (dropping the spawned tasks). -/
def MainWindow.redoN (w : MainWindow) : Nat → MainWindow
  | 0 => w
  | n + 1 => ((w.redo).1).redoN n

/-- `MainWindow.process_image`: build the command (capturing
`current_image` as `old_state`), push it on the undo stack — which
truncates the redoable suffix, appends, runs the command's `redo` and
advances the cursor — then `add_effect` the effect onto the batch queue
and enable the save and batch buttons. -/
def MainWindow.process_image (w : MainWindow) (effect_type : String) :
    MainWindow × Option PendingTask :=
  let command : ImageProcessCommand :=
    { effect_type := effect_type,
      old_state := { path := w.current_image, effect := none },
      new_state := none }
  let i := w.undo_stack.index
  let w1 := { w with undo_stack :=
      { commands := w.undo_stack.commands.take i ++ [command], index := i + 1 } }
  let r := command.redo w1 i
  let w2 := { r.1 with
      batch_processor := r.1.batch_processor.add_effect effect_type,
      save_enabled := true, process_batch_enabled := true }
  (w2, r.2)

/-- `MainWindow.processing_complete`: hide the progress bar; validate that
the result file exists and decodes to a non-null pixmap, returning early
(image state untouched) on either validation failure; otherwise show the
result, record it as `current_processed_image`, fill the associated
command's `new_state` and enable saving.  `pathExists` and `decodable`
are the filesystem/decoder environment; `command` is the stack position
of the command the completion lambda captured. -/
def MainWindow.processing_complete (pathExists decodable : String → Bool)
    (w : MainWindow) (result_path : String) (command : Option Nat) :
    MainWindow × List LogEntry :=
  let w1 := { w with progress_visible := false }
  if pathExists result_path = false then
    (w1, [LogEntry.infoComplete result_path, LogEntry.resultMissing result_path])
  else if decodable result_path = false then
    (w1, [LogEntry.infoComplete result_path, LogEntry.resultNotDecodable result_path])
  else
    let w2 := { w1 with displayed := some result_path,
                        current_processed_image := some result_path,
                        save_enabled := true }
    let fill : ImageProcessCommand → ImageProcessCommand :=
      fun c => { c with new_state := some ⟨some result_path, some c.effect_type⟩ }
    let w3 :=
      match command with
      | none => w2
      | some i =>
          { w2 with undo_stack := { w2.undo_stack with
              commands := listModify fill i w2.undo_stack.commands } }
    (w3, [LogEntry.infoComplete result_path])

/-- A started asynchronous thread runs to completion: `ProcessingThread.run`
invokes the engine; on success the `finished` signal delivers the result
path to `processing_complete` together with the captured command; on an
engine exception nothing further happens (the signal is never emitted). -/
def MainWindow.completeTask (pathExists decodable : String → Bool) (engineOk : Bool)
    (w : MainWindow) (t : PendingTask) : MainWindow × List LogEntry :=
  match ProcessingThread.run engineOk t.input_path t.effect_type t.output_path with
  | (some result_path, lg) =>
      let r := w.processing_complete pathExists decodable result_path t.command
      (r.1, lg ++ r.2)
  | (none, lg) => (w, lg)

/-- One fully completed single-image effect application: `process_image`
followed — when a thread was started — by a successful engine run and its
completion handling. -/
def MainWindow.applyEffect (pathExists decodable : String → Bool)
    (w : MainWindow) (effect_type : String) : MainWindow :=
  let r := w.process_image effect_type
  match r.2 with
  | none => r.1
  | some t => (MainWindow.completeTask pathExists decodable true r.1 t).1

/-! Closed forms for the two batch-processing loops. -/

/-- The engine calls one file contributes to a batch run: the first call
reads `current` and every call writes the file's (single, reused) temp
path, which is also the input of every later call. -/
def expectedCalls (temp current : String) (effects : List String) : List EngineCall :=
  match effects with
  | [] => []
  | e :: rest => ⟨current, e, temp⟩ :: rest.map (fun e2 => ⟨temp, e2, temp⟩)

lemma expectedCalls_length (temp current : String) (effects : List String) :
    (expectedCalls temp current effects).length = effects.length := by
  cases effects <;> simp [expectedCalls]

lemma expectedCalls_self (temp : String) (effects : List String) :
    expectedCalls temp temp effects = effects.map (fun e => EngineCall.mk temp e temp) := by
  cases effects <;> simp [expectedCalls]

lemma expectedCalls_output (temp current : String) (effects : List String)
    (c : EngineCall) (hc : c ∈ expectedCalls temp current effects) :
    c.output_path = temp := by
  cases effects with
  | nil => simp [expectedCalls] at hc
  | cons e rest =>
      simp [expectedCalls] at hc
      rcases hc with h | ⟨e2, _, h⟩
      · simp [h]
      · simp [← h]

/-- The successive progress-bar values for `n` steps starting after `done`
completed operations: `(done + i) * 100 / total` for `i = 1 .. n`. -/
def progList (done n total : Nat) : List Nat :=
  match n with
  | 0 => []
  | m + 1 => (done + 1) * 100 / total :: progList (done + 1) m total

lemma progList_append (total b : Nat) :
    ∀ (a done : Nat), progList done a total ++ progList (done + a) b total
      = progList done (a + b) total := by
  intro a
  induction a with
  | zero => intro done; simp [progList]
  | succ m ih =>
      intro done
      have h1 : done + (m + 1) = (done + 1) + m := by omega
      have h2 : m + 1 + b = (m + b) + 1 := by omega
      simp [progList, h1, h2, ih]

section LoopLemmas

variable (bp : BatchProcessor) (ok : Nat → Bool) (f : String) (total : Nat)

lemma runEffectsLoop_calls : ∀ (effects : List String) (current : String) (done : Nat),
    (runEffectsLoop bp ok f effects current done total).calls
      = expectedCalls (bp.get_temp_path f) current effects := by
  intro effects
  induction effects with
  | nil => intro current done; simp [runEffectsLoop, expectedCalls]
  | cons e rest ih =>
      intro current done
      simp only [runEffectsLoop]
      rw [ih, expectedCalls_self]
      rfl

lemma runEffectsLoop_calls_length (effects : List String) (current : String) (done : Nat) :
    (runEffectsLoop bp ok f effects current done total).calls.length = effects.length := by
  simp [runEffectsLoop_calls, expectedCalls_length]

lemma runEffectsLoop_current : ∀ (effects : List String) (current : String) (done : Nat),
    (runEffectsLoop bp ok f effects current done total).current
      = if effects.isEmpty then current else bp.get_temp_path f := by
  intro effects
  induction effects with
  | nil => intro current done; simp [runEffectsLoop]
  | cons e rest ih =>
      intro current done
      simp [runEffectsLoop, ih]

lemma runEffectsLoop_done : ∀ (effects : List String) (current : String) (done : Nat),
    (runEffectsLoop bp ok f effects current done total).done = done + effects.length := by
  intro effects
  induction effects with
  | nil => intro current done; simp [runEffectsLoop]
  | cons e rest ih =>
      intro current done
      simp [runEffectsLoop, ih]
      omega

lemma runEffectsLoop_progs : ∀ (effects : List String) (current : String) (done : Nat),
    (runEffectsLoop bp ok f effects current done total).progs
      = progList done effects.length total := by
  intro effects
  induction effects with
  | nil => intro current done; simp [runEffectsLoop, progList]
  | cons e rest ih =>
      intro current done
      simp [runEffectsLoop, progList, ih]

lemma runFilesLoop_calls (effects : List String) :
    ∀ (files : List String) (done : Nat) (processed : List (String × String)),
    (runFilesLoop bp ok files effects done total processed).calls
      = (files.map (fun g => expectedCalls (bp.get_temp_path g) g effects)).flatten := by
  intro files
  induction files with
  | nil => intro done processed; simp [runFilesLoop]
  | cons g rest ih =>
      intro done processed
      simp [runFilesLoop, ih, runEffectsLoop_calls]

lemma runFilesLoop_calls_length (effects : List String) :
    ∀ (files : List String) (done : Nat) (processed : List (String × String)),
    (runFilesLoop bp ok files effects done total processed).calls.length
      = files.length * effects.length := by
  intro files
  induction files with
  | nil => intro done processed; simp [runFilesLoop]
  | cons g rest ih =>
      intro done processed
      simp [runFilesLoop, ih, runEffectsLoop_calls_length]
      ring

lemma runFilesLoop_progs (effects : List String) :
    ∀ (files : List String) (done : Nat) (processed : List (String × String)),
    (runFilesLoop bp ok files effects done total processed).progs
      = progList done (files.length * effects.length) total := by
  intro files
  induction files with
  | nil => intro done processed; simp [runFilesLoop, progList]
  | cons g rest ih =>
      intro done processed
      have hlen : (g :: rest).length * effects.length
          = effects.length + rest.length * effects.length := by
        simp [List.length_cons]; ring
      rw [hlen]
      simp only [runFilesLoop]
      rw [runEffectsLoop_progs, runEffectsLoop_done, ih, progList_append]

lemma runFilesLoop_processed (effects : List String) :
    ∀ (files : List String) (done : Nat) (processed : List (String × String)),
    (runFilesLoop bp ok files effects done total processed).processed
      = files.foldl
          (fun m g => dictInsert m g (if effects.isEmpty then g else bp.get_temp_path g))
          processed := by
  intro files
  induction files with
  | nil => intro done processed; simp [runFilesLoop]
  | cons g rest ih =>
      intro done processed
      simp [runFilesLoop, ih, runEffectsLoop_current]

end LoopLemmas

lemma process_batch_nonempty (bp : BatchProcessor) (files : List String) (ok : Nat → Bool)
    (hf : files ≠ []) (he : bp.effects_queue ≠ []) :
    process_batch bp files ok =
      { calls := (runFilesLoop bp ok files bp.effects_queue 0
            (files.length * bp.effects_queue.length) bp.processed_images).calls,
        progressValues := (runFilesLoop bp ok files bp.effects_queue 0
            (files.length * bp.effects_queue.length) bp.processed_images).progs,
        logs := (runFilesLoop bp ok files bp.effects_queue 0
            (files.length * bp.effects_queue.length) bp.processed_images).logs
          ++ [LogEntry.infoBatchComplete],
        processed := (runFilesLoop bp ok files bp.effects_queue 0
            (files.length * bp.effects_queue.length) bp.processed_images).processed } := by
  have h1 : files.isEmpty = false := by cases files with
    | nil => exact absurd rfl hf
    | cons a l => rfl
  have h2 : bp.effects_queue.isEmpty = false := by
    cases h : bp.effects_queue with
    | nil => exact absurd h he
    | cons a l => rfl
  simp [process_batch, h1, h2]

/-- Modelled from the spec's words, for comparison with the code's
`get_temp_path`: "every generated path is
`<temp_dir>/temp_<original_file_basename>`". -/
def specTempPath (temp_dir original_path : String) : String :=
  temp_dir ++ "/temp_" ++ pathName original_path

/-- C8: for every original file path `p` and every `BatchProcessor` with
temp directory `d`, `get_temp_path p` returns exactly `d` joined with
`temp_` followed by the basename of `p`.  Determinism over repeated calls
is immediate because `get_temp_path` is a pure function of
`(temp_dir, original_path)`. -/
theorem get_temp_path_spec (bp : BatchProcessor) (p : String) :
    bp.get_temp_path p = specTempPath bp.temp_dir p := by
  have h2 : ("/" : String) ++ "temp_" = "/temp_" := by decide
  have h3 : ("/" : String) ++ ("temp_" ++ pathName p) = "/temp_" ++ pathName p := by
    rw [← String.append_assoc, h2]
  show bp.temp_dir ++ "/" ++ ("temp_" ++ pathName p)
      = bp.temp_dir ++ "/temp_" ++ pathName p
  rw [String.append_assoc, h3, ← String.append_assoc]

/-- Window reachable by: construct the window, trigger an effect with no
image loaded (creating a command whose `old_state.path` is empty), then
load `b.png`. -/
def emptyOldStateWindow : MainWindow :=
  (((MainWindow.initial "/t").process_image "blur").1).load_specific_image (some "b.png")

/-- C2 counterexample: a command whose `old_state.path` is empty (created
while no image was loaded) is not a no-op under `undo` — `undo` replaces
the displayed image (`b.png`) with the empty path, changing the
displayed-image state. -/
theorem undo_of_empty_old_state_changes_display :
    emptyOldStateWindow.undo_stack.commands = [⟨"blur", ⟨none, none⟩, none⟩]
    ∧ emptyOldStateWindow.displayed = some "b.png"
    ∧ (emptyOldStateWindow.undo).displayed = none
    ∧ (emptyOldStateWindow.undo).current_image = none := by decide

/-- C2 amended: for a command whose `old_state.path` is empty, `redo` (with
`new_state` unpopulated) is a no-op that starts no processing provided no
image is currently loaded (`process_image_internal`'s `current_image`
guard); `undo`, however, is not guarded: it unconditionally calls
`load_specific_image` with the empty old path, replacing the current and
displayed image state with the empty path. -/
theorem empty_old_state_behavior (w : MainWindow) (c : ImageProcessCommand) (i : Nat)
    (hold : c.old_state.path = none) :
    c.undo w = w.load_specific_image none
    ∧ (c.new_state = none → w.current_image = none → c.redo w i = (w, none)) := by
  constructor
  · simp [ImageProcessCommand.undo, hold]
  · intro h1 h2
    simp [ImageProcessCommand.redo, h1, MainWindow.process_image_internal, h2]

theorem empty_old_state_behavior_witness :
    (ImageProcessCommand.mk "blur" ⟨none, none⟩ none).old_state.path = none
    ∧ (ImageProcessCommand.mk "blur" ⟨none, none⟩ none).undo (MainWindow.initial "/t")
        = (MainWindow.initial "/t").load_specific_image none :=
  ⟨by decide,
   (empty_old_state_behavior (MainWindow.initial "/t") ⟨"blur", ⟨none, none⟩, none⟩ 0 rfl).1⟩

/-- C1, what the code actually does (contradicting the claim): engine
failures change nothing about a batch run except the log.
`ProcessingThread.run` catches every engine exception itself, so the
`try/except` around the batch loop never fires: the calls performed, the
progress values and the `processed` mapping are identical whatever subset
of engine calls fails.  Concretely, with files `[a.png, b.png]`, effects
`[blur, sepia]` and engine call 1 failing, all 4 engine calls are still
performed, the failure is only logged, and `processed` still maps both
files to their temp paths. -/
theorem batch_continues_after_engine_failure :
    (∀ (bp : BatchProcessor) (files : List String) (ok1 ok2 : Nat → Bool),
        (process_batch bp files ok1).calls = (process_batch bp files ok2).calls
        ∧ (process_batch bp files ok1).processed = (process_batch bp files ok2).processed
        ∧ (process_batch bp files ok1).progressValues
            = (process_batch bp files ok2).progressValues)
    ∧ (process_batch ⟨["blur", "sepia"], "/t", []⟩ ["a.png", "b.png"]
          (fun j => j != 1)).calls.length = 4
    ∧ (process_batch ⟨["blur", "sepia"], "/t", []⟩ ["a.png", "b.png"]
          (fun j => j != 1)).processed
        = [("a.png", "/t/temp_a.png"), ("b.png", "/t/temp_b.png")]
    ∧ LogEntry.processingError "a.png" "blur" "/t/temp_a.png"
        ∈ (process_batch ⟨["blur", "sepia"], "/t", []⟩ ["a.png", "b.png"]
          (fun j => j != 1)).logs := by
  refine ⟨?_, by decide, by decide, by decide⟩
  intro bp files ok1 ok2
  by_cases hf : files = []
  · subst hf; simp [process_batch]
  · by_cases he : bp.effects_queue = []
    · simp [process_batch, he]
    · rw [process_batch_nonempty bp files ok1 hf he,
         process_batch_nonempty bp files ok2 hf he]
      refine ⟨?_, ?_, ?_⟩
      · show (runFilesLoop bp ok1 files bp.effects_queue 0
            (files.length * bp.effects_queue.length) bp.processed_images).calls = _
        rw [runFilesLoop_calls, runFilesLoop_calls]
      · show (runFilesLoop bp ok1 files bp.effects_queue 0
            (files.length * bp.effects_queue.length) bp.processed_images).processed = _
        rw [runFilesLoop_processed, runFilesLoop_processed]
      · show (runFilesLoop bp ok1 files bp.effects_queue 0
            (files.length * bp.effects_queue.length) bp.processed_images).progs = _
        rw [runFilesLoop_progs, runFilesLoop_progs]

/-- C3: a batch run over non-empty `files` and a non-empty queue performs
exactly `F*E` engine calls in file-major effect-minor order (per file the
first call reads the file, every call writes the file's temp path, later
calls chain through it), records `processed[file] = current` after the
last effect of each file, and on `["a.png","b.png"]` with
`["blur","sepia"]` yields `processed = {a.png: <temp>/temp_a.png,
b.png: <temp>/temp_b.png}`. -/
theorem batch_algorithm (bp : BatchProcessor) (files : List String) (ok : Nat → Bool)
    (hf : files ≠ []) (he : bp.effects_queue ≠ []) :
    (process_batch bp files ok).calls
      = (files.map (fun g => expectedCalls (bp.get_temp_path g) g bp.effects_queue)).flatten
    ∧ (process_batch bp files ok).calls.length = files.length * bp.effects_queue.length
    ∧ (process_batch bp files ok).processed
      = files.foldl (fun m g => dictInsert m g (bp.get_temp_path g)) bp.processed_images
    ∧ (∀ (d : String) (ok2 : Nat → Bool),
        (process_batch ⟨["blur", "sepia"], d, []⟩ ["a.png", "b.png"] ok2).processed
          = [("a.png", pathJoin d "temp_a.png"), ("b.png", pathJoin d "temp_b.png")]) := by
  have hee : bp.effects_queue.isEmpty = false := by
    cases h : bp.effects_queue with
    | nil => exact absurd h he
    | cons a l => rfl
  rw [process_batch_nonempty bp files ok hf he]
  refine ⟨?_, ?_, ?_, ?_⟩
  · show (runFilesLoop bp ok files bp.effects_queue 0
        (files.length * bp.effects_queue.length) bp.processed_images).calls = _
    rw [runFilesLoop_calls]
  · show (runFilesLoop bp ok files bp.effects_queue 0
        (files.length * bp.effects_queue.length) bp.processed_images).calls.length = _
    rw [runFilesLoop_calls_length]
  · show (runFilesLoop bp ok files bp.effects_queue 0
        (files.length * bp.effects_queue.length) bp.processed_images).processed = _
    rw [runFilesLoop_processed]
    simp [hee]
  · intro d ok2
    have hpa : ("temp_" : String) ++ pathName "a.png" = "temp_a.png" := by decide
    have hpb : ("temp_" : String) ++ pathName "b.png" = "temp_b.png" := by decide
    rw [process_batch_nonempty ⟨["blur", "sepia"], d, []⟩ ["a.png", "b.png"] ok2
        (by simp) (by simp)]
    show (runFilesLoop ⟨["blur", "sepia"], d, []⟩ ok2 ["a.png", "b.png"] ["blur", "sepia"]
        0 (2 * 2) []).processed = _
    rw [runFilesLoop_processed]
    simp [dictInsert, BatchProcessor.get_temp_path, hpa, hpb]

theorem batch_algorithm_witness :
    (["a.png", "b.png"] : List String) ≠ []
    ∧ (process_batch ⟨["blur", "sepia"], "/t", []⟩ ["a.png", "b.png"]
        (fun _ => true)).calls.length
      = (["a.png", "b.png"] : List String).length
          * (BatchProcessor.mk ["blur", "sepia"] "/t" []).effects_queue.length :=
  ⟨by simp,
   (batch_algorithm ⟨["blur", "sepia"], "/t", []⟩ ["a.png", "b.png"] (fun _ => true)
      (by simp) (by simp)).2.1⟩

/-- C4 counterexample: the source truncates (Python `int()`), it does not
round; for a 2-file 3-effect batch the reported values are
16, 33, 50, 66, 83, 100 — so they are not the claimed rounded values
17, 33, 50, 67, 83, 100. -/
theorem progress_values_not_rounded :
    (process_batch ⟨["e1", "e2", "e3"], "/t", []⟩ ["a.png", "b.png"]
        (fun _ => true)).progressValues = [16, 33, 50, 66, 83, 100]
    ∧ (process_batch ⟨["e1", "e2", "e3"], "/t", []⟩ ["a.png", "b.png"]
        (fun _ => true)).progressValues ≠ [17, 33, 50, 67, 83, 100] := by decide

/-- C4 amended: during every batch run of 2 files with 3 queued effects,
the progress value reported after each of the 6 (file, effect) steps takes
exactly the truncated percentage values 16, 33, 50, 66, 83, 100, in that
order, monotonically non-decreasing. -/
theorem progress_values_two_files_three_effects (bp : BatchProcessor)
    (files : List String) (ok : Nat → Bool)
    (hf : files.length = 2) (he : bp.effects_queue.length = 3) :
    (process_batch bp files ok).progressValues = [16, 33, 50, 66, 83, 100]
    ∧ List.Chain' (· ≤ ·) (process_batch bp files ok).progressValues := by
  have hf' : files ≠ [] := by intro h; rw [h] at hf; simp at hf
  have he' : bp.effects_queue ≠ [] := by intro h; rw [h] at he; simp at he
  rw [process_batch_nonempty bp files ok hf' he']
  have hval : (runFilesLoop bp ok files bp.effects_queue 0
      (files.length * bp.effects_queue.length) bp.processed_images).progs
      = [16, 33, 50, 66, 83, 100] := by
    rw [runFilesLoop_progs, hf, he]
    decide
  constructor
  · exact hval
  · show List.Chain' (· ≤ ·) (runFilesLoop bp ok files bp.effects_queue 0
        (files.length * bp.effects_queue.length) bp.processed_images).progs
    rw [hval]
    simp [List.chain'_cons]

theorem progress_values_two_files_three_effects_witness :
    (["a.png", "b.png"] : List String).length = 2
    ∧ (process_batch ⟨["e1", "e2", "e3"], "/t", []⟩ ["a.png", "b.png"]
        (fun _ => true)).progressValues = [16, 33, 50, 66, 83, 100] :=
  ⟨by decide,
   (progress_values_two_files_three_effects ⟨["e1", "e2", "e3"], "/t", []⟩
      ["a.png", "b.png"] (fun _ => true) (by decide) (by decide)).1⟩

/-- C9: every `process_image(effect_type)` call, besides pushing an undo
command (capturing the current image as `old_state`), appends the effect
to the batch processor's `effects_queue`; consequently a later batch run
over any non-empty file list performs one more engine call per file than
it would have before this edit. -/
theorem process_image_grows_batch_queue (w : MainWindow) (e : String) :
    ((w.process_image e).1).batch_processor.effects_queue
      = w.batch_processor.effects_queue ++ [e]
    ∧ ((w.process_image e).1).undo_stack.commands
      = w.undo_stack.commands.take w.undo_stack.index
          ++ [⟨e, ⟨w.current_image, none⟩, none⟩]
    ∧ (∀ (files : List String) (ok : Nat → Bool), files ≠ [] →
        (process_batch ((w.process_image e).1).batch_processor files ok).calls.length
          = files.length * (w.batch_processor.effects_queue.length + 1)) := by
  have key : ((w.process_image e).1).batch_processor = w.batch_processor.add_effect e
      ∧ ((w.process_image e).1).undo_stack.commands
        = w.undo_stack.commands.take w.undo_stack.index
            ++ [⟨e, ⟨w.current_image, none⟩, none⟩] := by
    simp only [MainWindow.process_image, ImageProcessCommand.redo,
      MainWindow.process_image_internal]
    cases h : w.current_image with
    | none => simp
    | some img =>
        by_cases h2 : img = "" <;> simp [h2, MainWindow.load_specific_image]
  refine ⟨?_, key.2, ?_⟩
  · rw [key.1]; rfl
  · intro files ok hfne
    have hq : ((w.process_image e).1).batch_processor.effects_queue
        = w.batch_processor.effects_queue ++ [e] := by rw [key.1]; rfl
    have hqne : ((w.process_image e).1).batch_processor.effects_queue ≠ [] := by
      rw [hq]; simp
    rw [process_batch_nonempty _ files ok hfne hqne]
    show (runFilesLoop ((w.process_image e).1).batch_processor ok files
        ((w.process_image e).1).batch_processor.effects_queue 0 _ _).calls.length = _
    rw [runFilesLoop_calls_length, hq]
    simp

theorem process_image_grows_batch_queue_witness :
    (["a.png"] : List String) ≠ []
    ∧ (process_batch (((MainWindow.initial "/t").process_image "blur").1).batch_processor
        ["a.png"] (fun _ => true)).calls.length
      = (["a.png"] : List String).length
          * ((MainWindow.initial "/t").batch_processor.effects_queue.length + 1) :=
  ⟨by simp,
   (process_image_grows_batch_queue (MainWindow.initial "/t") "blur").2.2
     ["a.png"] (fun _ => true) (by simp)⟩

/-- C10: two distinct original paths with equal basenames receive the same
temp path from `get_temp_path`; in a batch over exactly those two files
every engine call of both files writes that one shared output path, and
both `processed` entries reference it. -/
theorem equal_basenames_share_temp_path (bp : BatchProcessor) (p q : String)
    (ok : Nat → Bool) (hname : pathName p = pathName q) (hpq : p ≠ q)
    (he : bp.effects_queue ≠ []) (hm : bp.processed_images = []) :
    bp.get_temp_path p = bp.get_temp_path q
    ∧ (∀ c ∈ (process_batch bp [p, q] ok).calls, c.output_path = bp.get_temp_path p)
    ∧ (process_batch bp [p, q] ok).processed
        = [(p, bp.get_temp_path p), (q, bp.get_temp_path p)] := by
  have hee : bp.effects_queue.isEmpty = false := by
    cases h : bp.effects_queue with
    | nil => exact absurd h he
    | cons a l => rfl
  have htemp : bp.get_temp_path p = bp.get_temp_path q := by
    simp [BatchProcessor.get_temp_path, hname]
  refine ⟨htemp, ?_, ?_⟩
  · intro c hc
    rw [process_batch_nonempty bp [p, q] ok (by simp) he] at hc
    have hc2 : c ∈ (runFilesLoop bp ok [p, q] bp.effects_queue 0
        (([p, q] : List String).length * bp.effects_queue.length)
        bp.processed_images).calls := hc
    rw [runFilesLoop_calls] at hc2
    simp at hc2
    rcases hc2 with h | h
    · exact expectedCalls_output _ _ _ _ h
    · rw [htemp]; exact expectedCalls_output _ _ _ _ h
  · rw [process_batch_nonempty bp [p, q] ok (by simp) he]
    show (runFilesLoop bp ok [p, q] bp.effects_queue 0
        (([p, q] : List String).length * bp.effects_queue.length)
        bp.processed_images).processed = _
    rw [runFilesLoop_processed]
    simp [hee, hm, dictInsert, hpq, htemp]

theorem equal_basenames_share_temp_path_witness :
    pathName "x/a.png" = pathName "y/a.png"
    ∧ (BatchProcessor.mk ["blur"] "/t" []).get_temp_path "x/a.png"
        = (BatchProcessor.mk ["blur"] "/t" []).get_temp_path "y/a.png" :=
  ⟨by decide,
   (equal_basenames_share_temp_path ⟨["blur"], "/t", []⟩ "x/a.png" "y/a.png"
      (fun _ => true) (by decide) (by decide) (by simp) rfl).1⟩

/-- C7: when the reported result path does not exist or does not decode to
a valid pixmap, `processing_complete` returns early: the displayed pixmap,
`current_processed_image` and the whole undo stack (hence the associated
command's `new_state`) keep their previous values, a validation error
(`resultMissing` or `resultNotDecodable`) is logged, and the
engine-failure log entry (`processingError`, emitted only by
`ProcessingThread.run`'s except branch) never appears. -/
theorem invalid_result_leaves_state_unchanged (pathExists decodable : String → Bool)
    (w : MainWindow) (result_path : String) (command : Option Nat)
    (h : pathExists result_path = false ∨ decodable result_path = false) :
    ((w.processing_complete pathExists decodable result_path command).1).displayed
        = w.displayed
    ∧ ((w.processing_complete pathExists decodable result_path command).1).current_processed_image
        = w.current_processed_image
    ∧ ((w.processing_complete pathExists decodable result_path command).1).undo_stack
        = w.undo_stack
    ∧ (LogEntry.resultMissing result_path
          ∈ (w.processing_complete pathExists decodable result_path command).2
        ∨ LogEntry.resultNotDecodable result_path
          ∈ (w.processing_complete pathExists decodable result_path command).2)
    ∧ (∀ (a b c : String), LogEntry.processingError a b c
          ∉ (w.processing_complete pathExists decodable result_path command).2) := by
  rcases h with h | h
  · simp [MainWindow.processing_complete, h]
  · by_cases h2 : pathExists result_path = false
    · simp [MainWindow.processing_complete, h2]
    · simp only [Bool.not_eq_false] at h2
      simp [MainWindow.processing_complete, h2, h]

theorem invalid_result_leaves_state_unchanged_witness :
    (((fun _ => false) : String → Bool) "x.png" = false
      ∨ ((fun _ => false) : String → Bool) "x.png" = false)
    ∧ (((MainWindow.initial "/t").processing_complete (fun _ => false) (fun _ => false)
        "x.png" none).1).displayed = (MainWindow.initial "/t").displayed :=
  ⟨Or.inl rfl,
   (invalid_result_leaves_state_unchanged (fun _ => false) (fun _ => false)
      (MainWindow.initial "/t") "x.png" none (Or.inl rfl)).1⟩

/-- The single-image grayscale scenario: load `a.png` into a fresh window
(temp directory `/t`) and run one completed application of the
`grayscale` effect. -/
def grayScenarioWindow : MainWindow :=
  MainWindow.applyEffect (fun _ => true) (fun _ => true)
    ((MainWindow.initial "/t").load_specific_image (some "a.png")) "grayscale"

/-- C5: `redo` of a command whose `new_state` is populated performs zero
engine calls — it is exactly `load_specific_image` on the cached path and
starts no task; with empty `new_state` it is exactly
`process_image_internal`, as on first application.  In the grayscale
scenario, after the completed first application the stack holds one
command with `old_state = (a.png, none)` and
`new_state = (/t/temp_a.png, grayscale)`; `undo` restores `a.png`, and
the subsequent `redo` restores the temp path while starting no
processing task (zero additional engine calls). -/
theorem redo_uses_cached_state :
    (∀ (w : MainWindow) (c : ImageProcessCommand) (i : Nat) (ns : ImageState),
        c.new_state = some ns → c.redo w i = (w.load_specific_image ns.path, none))
    ∧ (∀ (w : MainWindow) (c : ImageProcessCommand) (i : Nat),
        c.new_state = none → c.redo w i = w.process_image_internal c.effect_type (some i))
    ∧ (grayScenarioWindow.undo_stack.commands
        = [⟨"grayscale", ⟨some "a.png", none⟩,
            some ⟨some "/t/temp_a.png", some "grayscale"⟩⟩]
      ∧ grayScenarioWindow.undo_stack.index = 1
      ∧ (grayScenarioWindow.undo).displayed = some "a.png"
      ∧ (((grayScenarioWindow.undo).redo).1).displayed = some "/t/temp_a.png"
      ∧ ((grayScenarioWindow.undo).redo).2 = none) := by
  refine ⟨?_, ?_, by decide⟩
  · intro w c i ns h
    simp [ImageProcessCommand.redo, h]
  · intro w c i h
    simp [ImageProcessCommand.redo, h]

theorem redo_uses_cached_state_witness :
    (ImageProcessCommand.mk "blur" ⟨some "a.png", none⟩ (some ⟨some "/t/temp_a.png", some "blur"⟩)).new_state
      = some ⟨some "/t/temp_a.png", some "blur"⟩
    ∧ (ImageProcessCommand.mk "blur" ⟨some "a.png", none⟩
          (some ⟨some "/t/temp_a.png", some "blur"⟩)).redo (MainWindow.initial "/t") 0
      = ((MainWindow.initial "/t").load_specific_image (some "/t/temp_a.png"), none) :=
  ⟨rfl,
   redo_uses_cached_state.1 (MainWindow.initial "/t")
     ⟨"blur", ⟨some "a.png", none⟩, some ⟨some "/t/temp_a.png", some "blur"⟩⟩ 0
     ⟨some "/t/temp_a.png", some "blur"⟩ rfl⟩

/-! Machinery for the undo-N-then-redo-N round trip (C6). -/

lemma listModify_append_length (f : ImageProcessCommand → ImageProcessCommand) :
    ∀ (cs : List ImageProcessCommand) (c : ImageProcessCommand),
      listModify f cs.length (cs ++ [c]) = cs ++ [f c] := by
  intro cs
  induction cs with
  | nil => intro c; rfl
  | cons a l ih => intro c; simp [listModify, ih]

/-- The temp path a window with temp directory `d` derives for original
path `p`. -/
def tempName (d p : String) : String := pathJoin d ("temp_" ++ pathName p)

lemma get_temp_path_tempName (bp : BatchProcessor) (d p : String)
    (h : bp.temp_dir = d) : bp.get_temp_path p = tempName d p := by
  simp [BatchProcessor.get_temp_path, tempName, h]

/-- One completed effect application, evaluated: with a loaded non-empty
current image the whole `process_image` / engine-success /
`processing_complete` chain amounts to pushing the filled command,
recording and displaying the temp path, and queueing the effect. -/
lemma applyEffect_eq (w : MainWindow) (e p : String)
    (hci : w.current_image = some p) (hp : p ≠ "") :
    MainWindow.applyEffect (fun _ => true) (fun _ => true) w e
    = { current_image := some p,
        current_processed_image := some (w.batch_processor.get_temp_path p),
        displayed := some (w.batch_processor.get_temp_path p),
        progress_visible := false,
        effects_enabled := w.effects_enabled,
        save_enabled := true,
        process_batch_enabled := true,
        batch_files := w.batch_files,
        batch_processor := w.batch_processor.add_effect e,
        undo_stack := UndoStack.mk
          (listModify
            (fun c => { c with new_state := some ⟨some (w.batch_processor.get_temp_path p), some c.effect_type⟩ })
            w.undo_stack.index
            (w.undo_stack.commands.take w.undo_stack.index
              ++ [⟨e, ⟨some p, none⟩, none⟩]))
          (w.undo_stack.index + 1) } := by
  simp [MainWindow.applyEffect, MainWindow.process_image, ImageProcessCommand.redo,
    MainWindow.process_image_internal, MainWindow.completeTask, ProcessingThread.run,
    MainWindow.processing_complete, BatchProcessor.add_effect, hci, hp]

/-- Invariant maintained along a chain of completed single-image edits on
original image `p` in a window with temp directory `d`: the current image
stays `p`, the stack cursor sits at the top, every command on the stack
went from `p` to the (shared) temp path, and once any command exists the
temp path is displayed. -/
def ChainInv (d p : String) (w : MainWindow) : Prop :=
  w.current_image = some p
  ∧ w.batch_processor.temp_dir = d
  ∧ w.undo_stack.index = w.undo_stack.commands.length
  ∧ (∀ c ∈ w.undo_stack.commands,
      c.old_state.path = some p
      ∧ c.new_state = some ⟨some (tempName d p), some c.effect_type⟩)
  ∧ (w.undo_stack.commands = [] ∨ w.displayed = some (tempName d p))

lemma applyEffect_chain_inv (d p : String) (hp : p ≠ "") (w : MainWindow) (e : String)
    (h : ChainInv d p w) :
    ChainInv d p (MainWindow.applyEffect (fun _ => true) (fun _ => true) w e)
    ∧ (MainWindow.applyEffect (fun _ => true) (fun _ => true) w e).undo_stack.commands
      = w.undo_stack.commands
          ++ [⟨e, ⟨some p, none⟩, some ⟨some (tempName d p), some e⟩⟩] := by
  obtain ⟨hci, htd, hidx, hcmds, hdisp⟩ := h
  have htp : w.batch_processor.get_temp_path p = tempName d p :=
    get_temp_path_tempName w.batch_processor d p htd
  have hcommands :
      (MainWindow.applyEffect (fun _ => true) (fun _ => true) w e).undo_stack.commands
      = w.undo_stack.commands
          ++ [⟨e, ⟨some p, none⟩, some ⟨some (tempName d p), some e⟩⟩] := by
    rw [applyEffect_eq w e p hci hp]
    show listModify _ w.undo_stack.index
        (w.undo_stack.commands.take w.undo_stack.index ++ [⟨e, ⟨some p, none⟩, none⟩]) = _
    rw [hidx, List.take_length, listModify_append_length, htp]
  refine ⟨⟨?_, ?_, ?_, ?_, ?_⟩, hcommands⟩
  · rw [applyEffect_eq w e p hci hp]
  · rw [applyEffect_eq w e p hci hp]
    show (w.batch_processor.add_effect e).temp_dir = d
    rw [← htd]; rfl
  · rw [hcommands, applyEffect_eq w e p hci hp]
    show w.undo_stack.index + 1 = _
    rw [hidx]
    simp
  · rw [hcommands]
    intro c hc
    rcases List.mem_append.mp hc with hold | hnew
    · exact hcmds c hold
    · rw [List.mem_singleton.mp hnew]
      exact ⟨rfl, rfl⟩
  · rw [applyEffect_eq w e p hci hp]
    right
    show some (w.batch_processor.get_temp_path p) = some (tempName d p)
    rw [htp]

lemma chain_inv_fold (d p : String) (hp : p ≠ "") :
    ∀ (es : List String) (w : MainWindow), ChainInv d p w →
    ChainInv d p (es.foldl (MainWindow.applyEffect (fun _ => true) (fun _ => true)) w)
    ∧ (es.foldl (MainWindow.applyEffect (fun _ => true) (fun _ => true)) w).undo_stack.commands.length
      = w.undo_stack.commands.length + es.length := by
  intro es
  induction es with
  | nil => intro w hw; exact ⟨hw, by simp⟩
  | cons e rest ih =>
      intro w hw
      have step := applyEffect_chain_inv d p hp w e hw
      obtain ⟨h1, h2⟩ := ih _ step.1
      refine ⟨h1, ?_⟩
      simp only [List.foldl_cons]
      rw [h2, step.2]
      simp only [List.length_append, List.length_cons, List.length_nil]
      omega

/-- After `n` undos from a stack whose cursor is at `n` and whose commands
all have `old_state.path = some p2`, the commands are untouched, the
cursor is at the bottom, and (when `n > 0`) the displayed image is `p2`. -/
lemma undoN_walk (p2 : String) :
    ∀ (n : Nat) (w : MainWindow),
      w.undo_stack.index = n →
      n ≤ w.undo_stack.commands.length →
      (∀ c ∈ w.undo_stack.commands, c.old_state.path = some p2) →
      (w.undoN n).undo_stack.commands = w.undo_stack.commands
      ∧ (w.undoN n).undo_stack.index = 0
      ∧ (w.undoN n).displayed = (if n = 0 then w.displayed else some p2) := by
  intro n
  induction n with
  | zero =>
      intro w h1 h2 h3
      exact ⟨rfl, h1, rfl⟩
  | succ m ih =>
      intro w h1 h2 h3
      have hm : m < w.undo_stack.commands.length := by omega
      have hgm : w.undo_stack.commands[m]? = some w.undo_stack.commands[m] :=
        List.getElem?_eq_getElem hm
      have hmem : w.undo_stack.commands[m] ∈ w.undo_stack.commands :=
        List.getElem_mem hm
      have hpath := h3 _ hmem
      have hu : w.undo
          = { w with
              current_image := some p2, displayed := some p2,
              effects_enabled := true,
              undo_stack := UndoStack.mk w.undo_stack.commands m } := by
        simp only [MainWindow.undo, h1]
        rw [if_neg (by omega)]
        have hsub : m + 1 - 1 = m := rfl
        rw [hsub, hgm]
        simp only [ImageProcessCommand.undo, MainWindow.load_specific_image, hpath]
        rw [h1, hsub]
      have step := ih (w.undo) (by rw [hu]) (by rw [hu]; exact Nat.le_of_lt hm)
        (by rw [hu]; exact h3)
      show ((w.undo).undoN m).undo_stack.commands = _
        ∧ ((w.undo).undoN m).undo_stack.index = 0
        ∧ ((w.undo).undoN m).displayed = _
      refine ⟨by rw [step.1, hu], step.2.1, ?_⟩
      rw [step.2.2, hu]
      by_cases hm0 : m = 0 <;> simp [hm0]

/-- After `n` redos on a stack whose remaining suffix fits and whose
commands all have a populated `new_state` with path `t`, the displayed
image is `t` (when `n > 0`). -/
lemma redoN_walk (t : String) :
    ∀ (n : Nat) (w : MainWindow),
      w.undo_stack.index + n ≤ w.undo_stack.commands.length →
      (∀ c ∈ w.undo_stack.commands, ∃ e2, c.new_state = some ⟨some t, e2⟩) →
      (w.redoN n).displayed = (if n = 0 then w.displayed else some t) := by
  intro n
  induction n with
  | zero => intro w h1 h2; rfl
  | succ m ih =>
      intro w h1 h2
      have hi : w.undo_stack.index < w.undo_stack.commands.length := by omega
      have hgi : w.undo_stack.commands[w.undo_stack.index]?
          = some w.undo_stack.commands[w.undo_stack.index] :=
        List.getElem?_eq_getElem hi
      have hmem : w.undo_stack.commands[w.undo_stack.index] ∈ w.undo_stack.commands :=
        List.getElem_mem hi
      obtain ⟨e2, hns⟩ := h2 _ hmem
      have hr : (w.redo).1
          = { w with
              current_image := some t, displayed := some t,
              effects_enabled := true,
              undo_stack := UndoStack.mk w.undo_stack.commands (w.undo_stack.index + 1) } := by
        simp only [MainWindow.redo, hgi, ImageProcessCommand.redo, hns,
          MainWindow.load_specific_image]
      have step := ih ((w.redo).1)
        (by rw [hr]
            show w.undo_stack.index + 1 + m ≤ w.undo_stack.commands.length
            omega)
        (by rw [hr]; exact h2)
      show (((w.redo).1).redoN m).displayed = _
      rw [step, hr]
      by_cases hm0 : m = 0 <;> simp [hm0]

/-- The window after loading image `p` into a fresh window with temp
directory `d` and running a chain of completed effect applications, one
per element of `es`. -/
def scenarioChain (d p : String) (es : List String) : MainWindow :=
  es.foldl (MainWindow.applyEffect (fun _ => true) (fun _ => true))
    ((MainWindow.initial d).load_specific_image (some p))

/-- C6: for every non-empty sequence of completed single-image effect
applications, undoing all of them and then redoing all of them leaves the
displayed image path exactly as it was after the original applications. -/
theorem undo_redo_roundtrip (d p : String) (es : List String)
    (hp : p ≠ "") (hes : es ≠ []) :
    (((scenarioChain d p es).undoN es.length).redoN es.length).displayed
      = (scenarioChain d p es).displayed := by
  have hinv0 : ChainInv d p ((MainWindow.initial d).load_specific_image (some p)) := by
    refine ⟨rfl, rfl, rfl, ?_, Or.inl rfl⟩
    intro c hc
    simp [MainWindow.initial, MainWindow.load_specific_image] at hc
  obtain ⟨hinv, hlen⟩ := chain_inv_fold d p hp es _ hinv0
  have hinvS : ChainInv d p (scenarioChain d p es) := hinv
  have hlenS : (scenarioChain d p es).undo_stack.commands.length
      = ((MainWindow.initial d).load_specific_image (some p)).undo_stack.commands.length
        + es.length := hlen
  obtain ⟨hci, htd, hidx, hcmds, hdisp⟩ := hinvS
  have hlen' : (scenarioChain d p es).undo_stack.commands.length = es.length := by
    rw [hlenS]
    simp [MainWindow.initial, MainWindow.load_specific_image]
  have hn : es.length ≠ 0 := fun h => hes (List.eq_nil_of_length_eq_zero h)
  have hu := undoN_walk p es.length (scenarioChain d p es)
    (by rw [hidx, hlen']) (by rw [hlen']) (fun c hc => (hcmds c hc).1)
  obtain ⟨huc, hui, _⟩ := hu
  have hr := redoN_walk (tempName d p) es.length ((scenarioChain d p es).undoN es.length)
    (by rw [hui, huc, hlen']; omega)
    (fun c hc => ⟨some c.effect_type, (hcmds c (by rw [← huc]; exact hc)).2⟩)
  rw [hr, if_neg hn]
  rcases hdisp with h | h
  · exfalso
    rw [h] at hlen'
    exact hn (by simpa using hlen'.symm)
  · rw [h]

theorem undo_redo_roundtrip_witness :
    ("a.png" : String) ≠ ""
    ∧ (["grayscale", "blur"] : List String) ≠ []
    ∧ (((scenarioChain "/t" "a.png" ["grayscale", "blur"]).undoN
          (["grayscale", "blur"] : List String).length).redoN
          (["grayscale", "blur"] : List String).length).displayed
        = (scenarioChain "/t" "a.png" ["grayscale", "blur"]).displayed :=
  ⟨by decide, by decide,
   undo_redo_roundtrip "/t" "a.png" ["grayscale", "blur"] (by decide) (by decide)⟩

example : pathName "x/a.png" = "a.png" := by decide
example : pathName "a.png" = "a.png" := by decide
example : (process_batch ⟨["blur", "sepia"], "/t", []⟩ ["a.png", "b.png"]
    (fun _ => true)).processed
    = [("a.png", "/t/temp_a.png"), ("b.png", "/t/temp_b.png")] := by decide
example : (process_batch ⟨["b1", "b2", "b3"], "/t", []⟩ ["a.png", "b.png"]
    (fun _ => true)).progressValues = [16, 33, 50, 66, 83, 100] := by decide
example :
    (MainWindow.applyEffect (fun _ => true) (fun _ => true)
      ((MainWindow.initial "/t").load_specific_image (some "a.png"))
      "grayscale").undo_stack.commands
    = [⟨"grayscale", ⟨some "a.png", none⟩,
        some ⟨some "/t/temp_a.png", some "grayscale"⟩⟩] := by decide
example :
    ((MainWindow.applyEffect (fun _ => true) (fun _ => true)
      ((MainWindow.initial "/t").load_specific_image (some "a.png"))
      "grayscale").undo).displayed = some "a.png" := by decide
